import Mathlib

/-!
Verification development for the `ipyparaview` widget view
(`src/js/lib/widgets.js`, `PVDisplayView`).

The JavaScript source is shallowly embedded: JS numbers are modelled by
real numbers, the mutable closure state of the view (`cp`, `cf`, `cu`,
`m0`, `lastMouseT`) becomes an explicit `CtrlState` record, and each
event handler becomes a function `CtrlState → CtrlState × Option Publish`
where the optional `Publish` records the `model.set`/`save_changes`/`send`
triple performed by `updateCam`.  Frame buffers are byte lists.
-/

namespace IpyP

/-- A 3-component vector, modelling the JS arrays `[x[0], x[1], x[2]]`
used throughout `widgets.js`. -/
structure Vec3 where
  x : ℝ
  y : ℝ
  z : ℝ


/-- Spherical offset of the camera from the focal point, modelling the
array `cp` of `widgets.js`: `cp[0]` is the radius, `cp[1]` the azimuth,
`cp[2]` the elevation. -/
structure Sphr where
  r : ℝ
  az : ℝ
  el : ℝ


/-- A mouse position in the widget's normalized coordinates, modelling
the objects `\x7bx: mx, y: my\x7d` produced by `getNDC`. -/
structure NDC where
  x : ℝ
  y : ℝ


/-- The canvas bounding rectangle returned by
`canvas.getBoundingClientRect()`. -/
structure Rect where
  left : ℝ
  right : ℝ
  top : ℝ
  bottom : ℝ

/-- The fields of a mouse event read by the handlers. -/
structure MouseEvt where
  clientX : ℝ
  clientY : ℝ

/-- The fields of a wheel event read by `handleScroll`; a JS-falsy
(absent or zero) field is modelled by the value `0`. -/
structure WheelEvt where
  wheelDelta : ℝ
  detail : ℝ

/-- `norm` from `widgets.js` line 35: Euclidean length of a Vec3. -/
noncomputable def norm (v : Vec3) : ℝ :=
  Real.sqrt (v.x * v.x + v.y * v.y + v.z * v.z)

/-- `normalize` from `widgets.js` line 39: each component divided by the
norm. -/
noncomputable def normalize (v : Vec3) : Vec3 :=
  ⟨v.x / norm v, v.y / norm v, v.z / norm v⟩

/-- `cross` from `widgets.js` line 44: right-handed 3D cross product. -/
def cross (a b : Vec3) : Vec3 :=
  ⟨a.y * b.z - a.z * b.y, a.z * b.x - a.x * b.z, a.x * b.y - a.y * b.x⟩

/-- JS `Math.atan2 y x`, embedded as the complex argument of `x + y·i`:
for a nonzero point this is the angle in `(-π, π]` with
`atan2 y x = arctan (y/x)` for `x > 0`, and `atan2 0 0 = 0`, exactly the
JS semantics on real (non-NaN, unsigned-zero) inputs. -/
noncomputable def atan2 (y x : ℝ) : ℝ := Complex.arg ⟨x, y⟩

/-- `cartToSphr` from `widgets.js` line 50:
`[norm x, Math.atan2 (x[0], x[2]), Math.asin (x[1]/r)]`. -/
noncomputable def cartToSphr (v : Vec3) : Sphr :=
  ⟨norm v, atan2 v.x v.z, Real.arcsin (v.y / norm v)⟩

/-- `sphrToCart` from `widgets.js` line 57:
`[r·sin az·cos el, r·sin el, r·cos az·cos el]`. -/
noncomputable def sphrToCart (s : Sphr) : Vec3 :=
  ⟨s.r * Real.sin s.az * Real.cos s.el,
   s.r * Real.sin s.el,
   s.r * Real.cos s.az * Real.cos s.el⟩

/-- `vadd` from `widgets.js` line 63: componentwise vector addition. -/
def vadd (a b : Vec3) : Vec3 := ⟨a.x + b.x, a.y + b.y, a.z + b.z⟩

/-- `vscl` from `widgets.js` line 66: vector scaled by a scalar. -/
def vscl (a : Vec3) (k : ℝ) : Vec3 := ⟨a.x * k, a.y * k, a.z * k⟩

/-- `const throttlems = 1000.0/20.0` (`widgets.js` line 124). -/
noncomputable def throttlems : ℝ := 1000.0 / 20.0

/-- `const phiLim = 1.5175` (`widgets.js` line 140). -/
noncomputable def phiLim : ℝ := 1.5175

/-- `const wheelScl = 40.0` (`widgets.js` line 165). -/
noncomputable def wheelScl : ℝ := 40.0

/-- `const dScl = 0.05` (`widgets.js` line 166). -/
noncomputable def dScl : ℝ := 0.05

/-- `const rlim = 0.00001` (`widgets.js` line 167). -/
noncomputable def rlim : ℝ := 0.00001

/-- `getNDC` from `widgets.js` line 106:
`mx = (clientX - left)/(right - left)`,
`my = (clientY - top)/(top - bottom)`. -/
noncomputable def getNDC (rect : Rect) (e : MouseEvt) : NDC :=
  ⟨(e.clientX - rect.left) / (rect.right - rect.left),
   (e.clientY - rect.top) / (rect.top - rect.bottom)⟩

/-- The mutable closure state of `PVDisplayView.render`: the spherical
camera offset `cp`, the focal point `cf`, the up vector `cu`, the last
mouse NDC position `m0`, and the throttling timestamp `lastMouseT`. -/
structure CtrlState where
  cp : Sphr
  cf : Vec3
  cu : Vec3
  m0 : NDC
  lastMouseT : ℝ

/-- One outgoing publication performed by `updateCam`: the values written
by `model.set(\x7b"camp": ..., "camf": ...\x7d)` (followed by
`save_changes` and the render-request `send`), together with the
`Date.now()` timestamp `mt` at which it happened. -/
structure Publish where
  camp : Vec3
  camf : Vec3
  time : ℝ

/-- `updateCam` from `widgets.js` line 126, at wall-clock time `t`
(`mt = Date.now()`).  When more than `throttlems` has passed since
`lastMouseT` it publishes `camp = vadd (sphrToCart cp) cf` and
`camf = cf` and resets `lastMouseT`; otherwise it does nothing. -/
noncomputable def updateCam (t : ℝ) (s : CtrlState) : CtrlState × Option Publish :=
  if t - s.lastMouseT > throttlems then
    ({ s with lastMouseT := t }, some ⟨vadd (sphrToCart s.cp) s.cf, s.cf, t⟩)
  else (s, none)

/-- The state mutation of `handleDrag` (`widgets.js` line 138) before its
call to `updateCam`: `getMouseDelta` computes `m1 = getNDC e` and
`md = m1 - m0` and stores `m1` into `m0`; then `cp[1] -= 5.0*md.x` and
`cp[2] = max(-phiLim, min(phiLim, cp[2] - 5.0*md.y))`. -/
noncomputable def dragLocal (rect : Rect) (e : MouseEvt) (s : CtrlState) : CtrlState :=
  let m1 := getNDC rect e
  let md : NDC := ⟨m1.x - s.m0.x, m1.y - s.m0.y⟩
  { s with
    m0 := m1,
    cp := ⟨s.cp.r, s.cp.az - 5.0 * md.x,
           max (-phiLim) (min phiLim (s.cp.el - 5.0 * md.y))⟩ }

/-- `handleDrag` (`widgets.js` line 138): the local mutation, then
`updateCam`. -/
noncomputable def handleDrag (rect : Rect) (e : MouseEvt) (t : ℝ) (s : CtrlState) :
    CtrlState × Option Publish :=
  updateCam t (dragLocal rect e s)

/-- The state mutation of `handleMidDrag` (`widgets.js` line 149) before
its call to `updateCam`: with `scl = 1.0/1.25`, compute
`ccp = sphrToCart cp`, `h = normalize (cross ccp cu)`,
`v = normalize (cross ccp h)`,
`d = vscl (vadd (vscl h md.x) (vscl v md.y)) (cp[0]*scl)` and set
`cf = vadd cf d`; `getMouseDelta` again updates `m0`. -/
noncomputable def midDragLocal (rect : Rect) (e : MouseEvt) (s : CtrlState) : CtrlState :=
  let m1 := getNDC rect e
  let md : NDC := ⟨m1.x - s.m0.x, m1.y - s.m0.y⟩
  let ccp := sphrToCart s.cp
  let hv := normalize (cross ccp s.cu)
  let vv := normalize (cross ccp hv)
  let d := vscl (vadd (vscl hv md.x) (vscl vv md.y)) (s.cp.r * (1.0 / 1.25))
  { s with m0 := m1, cf := vadd s.cf d }

/-- `handleMidDrag` (`widgets.js` line 149): the local mutation, then
`updateCam`. -/
noncomputable def handleMidDrag (rect : Rect) (e : MouseEvt) (t : ℝ) (s : CtrlState) :
    CtrlState × Option Publish :=
  updateCam t (midDragLocal rect e s)

/-- The normalized wheel delta of `handleScroll` (`widgets.js` line 171):
`d = e.wheelDelta ? e.wheelDelta/wheelScl : e.detail ? -e.detail : 0`,
with JS truthiness of a number modelled as being nonzero. -/
noncomputable def wheelD (e : WheelEvt) : ℝ :=
  if e.wheelDelta ≠ 0 then e.wheelDelta / wheelScl
  else if e.detail ≠ 0 then -e.detail else 0

/-- The state mutation of `handleScroll` (`widgets.js` line 173) when the
normalized delta is truthy: `cp[0] = max(rlim, cp[0]*(1.0 - dScl*d))`. -/
noncomputable def scrollLocal (e : WheelEvt) (s : CtrlState) : CtrlState :=
  { s with cp := ⟨max rlim (s.cp.r * (1.0 - dScl * wheelD e)), s.cp.az, s.cp.el⟩ }

/-- `handleScroll` (`widgets.js` line 164): when the normalized wheel
delta `d` is nonzero, update the radius and call `updateCam`; otherwise
do nothing. -/
noncomputable def handleScroll (e : WheelEvt) (t : ℝ) (s : CtrlState) :
    CtrlState × Option Publish :=
  if wheelD e ≠ 0 then updateCam t (scrollLocal e s) else (s, none)

/-- An interaction event delivered to the view's handlers, tagged with
the `Date.now()` value the handler would observe. -/
inductive Evt where
  | mousedown (e : MouseEvt) (t : ℝ)
  | drag (e : MouseEvt) (t : ℝ)
  | midDrag (e : MouseEvt) (t : ℝ)
  | scroll (e : WheelEvt) (t : ℝ)

/-- The timestamp carried by an event. -/
def Evt.time : Evt → ℝ
  | .mousedown _ t => t
  | .drag _ t => t
  | .midDrag _ t => t
  | .scroll _ t => t

/-- One step of the view's event loop: dispatch an event to its handler
(`mousedown` only stores `m0 = getNDC e`, per `widgets.js` line 180). -/
noncomputable def step (rect : Rect) (ev : Evt) (s : CtrlState) :
    CtrlState × Option Publish :=
  match ev with
  | .mousedown e _ => ({ s with m0 := getNDC rect e }, none)
  | .drag e t => handleDrag rect e t s
  | .midDrag e t => handleMidDrag rect e t s
  | .scroll e t => handleScroll e t s

/-- The local (camera/mouse) state mutation of an event, without the
publication side effect: exactly what the handler does to `cp`, `cf`
and `m0` whether or not `updateCam` publishes. -/
noncomputable def applyLocal (rect : Rect) (ev : Evt) (s : CtrlState) : CtrlState :=
  match ev with
  | .mousedown e _ => { s with m0 := getNDC rect e }
  | .drag e _ => dragLocal rect e s
  | .midDrag e _ => midDragLocal rect e s
  | .scroll e _ => if wheelD e ≠ 0 then scrollLocal e s else s

/-- Run the event loop over a list of events, collecting the
publications in order. -/
noncomputable def run (rect : Rect) (s : CtrlState) : List Evt → CtrlState × List Publish
  | [] => (s, [])
  | ev :: evs =>
    ((run rect (step rect ev s).1 evs).1,
     (step rect ev s).2.toList ++ (run rect (step rect ev s).1 evs).2)

/-- The pixel-copy loop shared verbatim by the initial render
(`widgets.js` lines 95-100) and `frameChange` (lines 204-209): for each
4-byte group of the output `imgData.data` (whose length is four times the
pixel count), copy the first three bytes from `frame` and force the
fourth to 255.  Reading `frame` past its end (JS `undefined` stored into
a `Uint8ClampedArray`) yields 0, modelled by `List.getD _ 0`. -/
def frameToImageData (frame : List ℕ) : ℕ → List ℕ
  | 0 => []
  | n + 1 =>
    frameToImageData frame n ++
      [frame.getD (4 * n) 0, frame.getD (4 * n + 1) 0, frame.getD (4 * n + 2) 0, 255]

/-- The initial render's image conversion (`widgets.js` lines 92-101),
with `numPx = canvas.width * canvas.height`. -/
def renderInitialImage (frame : List ℕ) (numPx : ℕ) : List ℕ :=
  frameToImageData frame numPx

/-- The `frameChange` handler's image conversion (`widgets.js` lines
199-211). -/
def frameChangeImage (frame : List ℕ) (numPx : ℕ) : List ℕ :=
  frameToImageData frame numPx

/-- The display-surface transition on a frame-arrival notification:
`frameChange` recomputes the whole image from the incoming payload and
`putImageData` replaces the canvas content.  The previously displayed
image `prev` is never consulted — the source performs no payload
validation of any kind. -/
def frameArrive (_prev frame : List ℕ) (numPx : ℕ) : List ℕ :=
  frameChangeImage frame numPx

/-- The orbit operation on the spherical offset, as performed by
`handleDrag` (`widgets.js` lines 144-145) with deltas
`dAz = 5.0*md.x` and `dEl = 5.0*md.y`:
`az -= dAz; el = max(-phiLim, min(phiLim, el - dEl))`. -/
noncomputable def orbit (dAz dEl : ℝ) (c : Sphr) : Sphr :=
  ⟨c.r, c.az - dAz, max (-phiLim) (min phiLim (c.el - dEl))⟩

/-- `dragLocal` acts on `cp` exactly as `orbit` with the scaled mouse
deltas. -/
theorem dragLocal_cp (rect : Rect) (e : MouseEvt) (s : CtrlState) :
    (dragLocal rect e s).cp =
      orbit (5.0 * ((getNDC rect e).x - s.m0.x)) (5.0 * ((getNDC rect e).y - s.m0.y)) s.cp := by
  rfl

/-- Two controller states that agree on everything except possibly the
throttling timestamp. -/
def CamEq (s t : CtrlState) : Prop :=
  s.cp = t.cp ∧ s.cf = t.cf ∧ s.cu = t.cu ∧ s.m0 = t.m0

theorem CamEq.refl (s : CtrlState) : CamEq s s := ⟨rfl, rfl, rfl, rfl⟩

theorem CamEq.trans {s t u : CtrlState} (h1 : CamEq s t) (h2 : CamEq t u) : CamEq s u :=
  ⟨h1.1.trans h2.1, h1.2.1.trans h2.2.1, h1.2.2.1.trans h2.2.2.1, h1.2.2.2.trans h2.2.2.2⟩

/-- `applyLocal` never touches the throttling timestamp. -/
theorem applyLocal_lastMouseT (rect : Rect) (ev : Evt) (s : CtrlState) :
    (applyLocal rect ev s).lastMouseT = s.lastMouseT := by
  cases ev with
  | mousedown e t => rfl
  | drag e t => rfl
  | midDrag e t => rfl
  | scroll e t =>
    simp only [applyLocal]
    split <;> rfl

/-- Characterization of one event step: either nothing is published and
the state is exactly the local mutation, or the throttle gate was open
(`t - lastMouseT > throttlems`), the local mutation is applied, the
timestamp is reset to the event time, and the published values are
derived from the mutated state. -/
theorem step_char (rect : Rect) (ev : Evt) (s : CtrlState) :
    step rect ev s = (applyLocal rect ev s, none) ∨
      (ev.time - s.lastMouseT > throttlems ∧
        step rect ev s =
          ({ applyLocal rect ev s with lastMouseT := ev.time },
           some ⟨vadd (sphrToCart (applyLocal rect ev s).cp) (applyLocal rect ev s).cf,
                 (applyLocal rect ev s).cf, ev.time⟩)) := by
  cases ev with
  | mousedown e t => exact Or.inl rfl
  | drag e t =>
    simp only [step, handleDrag, updateCam, applyLocal, Evt.time]
    rcases lt_or_ge throttlems (t - (dragLocal rect e s).lastMouseT) with h | h
    · right
      have hl : (dragLocal rect e s).lastMouseT = s.lastMouseT := rfl
      rw [hl] at h
      refine ⟨h, ?_⟩
      rw [if_pos (by rw [hl]; exact h)]
    · left
      rw [if_neg (not_lt.mpr h)]
  | midDrag e t =>
    simp only [step, handleMidDrag, updateCam, applyLocal, Evt.time]
    rcases lt_or_ge throttlems (t - (midDragLocal rect e s).lastMouseT) with h | h
    · right
      have hl : (midDragLocal rect e s).lastMouseT = s.lastMouseT := rfl
      rw [hl] at h
      refine ⟨h, ?_⟩
      rw [if_pos (by rw [hl]; exact h)]
    · left
      rw [if_neg (not_lt.mpr h)]
  | scroll e t =>
    simp only [step, handleScroll, updateCam, applyLocal, Evt.time]
    by_cases hd : wheelD e ≠ 0
    · rw [if_pos hd, if_pos hd]
      rcases lt_or_ge throttlems (t - (scrollLocal e s).lastMouseT) with h | h
      · right
        have hl : (scrollLocal e s).lastMouseT = s.lastMouseT := rfl
        rw [hl] at h
        refine ⟨h, ?_⟩
        rw [if_pos (by rw [hl]; exact h)]
      · left
        rw [if_neg (not_lt.mpr h)]
    · rw [if_neg hd, if_neg hd]
      exact Or.inl rfl

/-- Every publication of a run is dated more than `throttlems` after the
initial throttling timestamp, and successive publications are pairwise
more than `throttlems` apart. -/
theorem run_publish_times (rect : Rect) :
    ∀ (evs : List Evt) (s : CtrlState),
      (∀ p ∈ (run rect s evs).2, p.time - s.lastMouseT > throttlems) ∧
      List.Pairwise (fun p q : Publish => q.time - p.time > throttlems) (run rect s evs).2 := by
  intro evs
  induction evs with
  | nil => intro s; simp [run]
  | cons ev evs ih =>
    intro s
    rcases step_char rect ev s with h | ⟨ht, h⟩
    · have hrun : (run rect s (ev :: evs)).2 = (run rect (applyLocal rect ev s) evs).2 := by
        simp [run, h]
      rw [hrun]
      refine ⟨fun p hp => ?_, (ih _).2⟩
      have h1 := (ih (applyLocal rect ev s)).1 p hp
      rwa [applyLocal_lastMouseT] at h1
    · have hrun : (run rect s (ev :: evs)).2 =
          (⟨vadd (sphrToCart (applyLocal rect ev s).cp) (applyLocal rect ev s).cf,
            (applyLocal rect ev s).cf, ev.time⟩ : Publish) ::
          (run rect { applyLocal rect ev s with lastMouseT := ev.time } evs).2 := by
        simp [run, h]
      have htail := ih { applyLocal rect ev s with lastMouseT := ev.time }
      have htm : ∀ p ∈ (run rect { applyLocal rect ev s with lastMouseT := ev.time } evs).2,
          p.time - ev.time > throttlems := by
        intro p hp
        simpa using htail.1 p hp
      rw [hrun]
      constructor
      · intro p hp
        rcases List.mem_cons.mp hp with rfl | hp
        · exact ht
        · have h2 := htm p hp
          have hpos : throttlems > 0 := by norm_num [throttlems]
          linarith
      · exact List.Pairwise.cons (fun q hq => htm q hq) htail.2

/-- A list of publications that are pairwise more than `throttlems`
apart has at most one member in any time window shorter than
`throttlems`. -/
theorem pairwise_window {ps : List Publish}
    (hp : List.Pairwise (fun p q : Publish => q.time - p.time > throttlems) ps)
    {a w : ℝ} (hw : w < throttlems) :
    ∀ i j (hi : i < ps.length) (hj : j < ps.length), i ≠ j →
      a ≤ (ps.get ⟨i, hi⟩).time → (ps.get ⟨i, hi⟩).time ≤ a + w →
      a ≤ (ps.get ⟨j, hj⟩).time → (ps.get ⟨j, hj⟩).time ≤ a + w → False := by
  intro i j hi hj hij hai hia haj hja
  have hpg := List.pairwise_iff_get.mp hp
  rcases lt_or_gt_of_ne hij with h | h
  · have := hpg ⟨i, hi⟩ ⟨j, hj⟩ h
    linarith
  · have := hpg ⟨j, hj⟩ ⟨i, hi⟩ h
    linarith

/-- The local mutation of an event depends only on the camera-visible
part of the state (not on the throttling timestamp), and preserves
agreement of that part. -/
theorem applyLocal_camEq (rect : Rect) (ev : Evt) {s t : CtrlState} (h : CamEq s t) :
    CamEq (applyLocal rect ev s) (applyLocal rect ev t) := by
  obtain ⟨h1, h2, h3, h4⟩ := h
  cases ev with
  | mousedown e u => exact ⟨h1, h2, h3, rfl⟩
  | drag e u =>
    refine ⟨?_, h2, h3, rfl⟩
    simp only [applyLocal, dragLocal, h1, h4]
  | midDrag e u =>
    refine ⟨h1, ?_, h3, rfl⟩
    simp only [applyLocal, midDragLocal, h1, h2, h3, h4]
  | scroll e u =>
    simp only [applyLocal]
    split
    · exact ⟨by simp only [scrollLocal, h1], h2, h3, h4⟩
    · exact ⟨h1, h2, h3, h4⟩

/-- The state component of a step agrees with the pure local mutation on
everything except possibly the throttling timestamp. -/
theorem step_camEq (rect : Rect) (ev : Evt) (s : CtrlState) :
    CamEq (step rect ev s).1 (applyLocal rect ev s) := by
  rcases step_char rect ev s with h | ⟨_, h⟩
  · rw [h]
    exact CamEq.refl _
  · rw [h]
    exact ⟨rfl, rfl, rfl, rfl⟩

/-- Folding the local mutations over two camera-equal states yields
camera-equal states. -/
theorem foldl_camEq (rect : Rect) :
    ∀ (evs : List Evt) {s t : CtrlState}, CamEq s t →
      CamEq (List.foldl (fun st ev => applyLocal rect ev st) s evs)
            (List.foldl (fun st ev => applyLocal rect ev st) t evs) := by
  intro evs
  induction evs with
  | nil => intro s t h; simpa using h
  | cons ev evs ih =>
    intro s t h
    simpa [List.foldl_cons] using ih (applyLocal_camEq rect ev h)

/-- The camera-visible state after a run equals the fold of the pure
local mutations over all events: no local update is ever dropped by
throttling. -/
theorem run_camEq (rect : Rect) :
    ∀ (evs : List Evt) (s : CtrlState),
      CamEq (run rect s evs).1 (List.foldl (fun st ev => applyLocal rect ev st) s evs) := by
  intro evs
  induction evs with
  | nil => intro s; exact CamEq.refl s
  | cons ev evs ih =>
    intro s
    have h1 : (run rect s (ev :: evs)).1 = (run rect (step rect ev s).1 evs).1 := by
      simp [run]
    rw [h1, List.foldl_cons]
    exact CamEq.trans (ih (step rect ev s).1) (foldl_camEq rect evs (step_camEq rect ev s))

/-- A pairwise-separated publication list has at most one member in any
closed window `[a, a + w]` with `w < throttlems`. -/
theorem pairwise_countP_window {ps : List Publish}
    (hp : List.Pairwise (fun p q : Publish => q.time - p.time > throttlems) ps)
    {a w : ℝ} (hw : w < throttlems) :
    (ps.countP fun p => decide (a ≤ p.time ∧ p.time ≤ a + w)) ≤ 1 := by
  induction ps with
  | nil => simp
  | cons p ps ih =>
    rw [List.countP_cons]
    by_cases hpw : a ≤ p.time ∧ p.time ≤ a + w
    · have hz : (ps.countP fun q => decide (a ≤ q.time ∧ q.time ≤ a + w)) = 0 := by
        rw [List.countP_eq_zero]
        intro q hq
        have hsep : q.time - p.time > throttlems := (List.pairwise_cons.mp hp).1 q hq
        simp only [decide_eq_true_eq]
        intro hc
        linarith [hc.2, hpw.1]
      rw [hz]
      split <;> simp
    · have hpred : decide (a ≤ p.time ∧ p.time ≤ a + w) = false := by
        simpa using hpw
      rw [hpred]
      simpa using ih (List.pairwise_cons.mp hp).2


/-- A concrete bounding rectangle used for witnesses: a 100×100 canvas
at the client origin. -/
def wRect : Rect := ⟨0, 100, 0, 100⟩

/-- A concrete controller state used for witnesses: offset radius 1 on
the z-axis, focal point at the origin, y-up, last publish at time 0. -/
noncomputable def wState : CtrlState :=
  ⟨⟨1, 0, 0⟩, ⟨0, 0, 0⟩, ⟨0, 1, 0⟩, ⟨0, 0⟩, 0⟩

/-- A concrete wheel event used for witnesses: `wheelDelta = 40`, so the
normalized delta is `40/wheelScl = 1`. -/
noncomputable def wWheel : WheelEvt := ⟨40, 0⟩

/-- The publication produced by a scroll on `wState` at time 100. -/
noncomputable def wPub : Publish :=
  ⟨vadd (sphrToCart (applyLocal wRect (Evt.scroll wWheel 100) wState).cp)
        (applyLocal wRect (Evt.scroll wWheel 100) wState).cf,
   (applyLocal wRect (Evt.scroll wWheel 100) wState).cf, 100⟩

/-- The witness scroll at time 100 (50 < 100 − 0) publishes `wPub`. -/
theorem wStep_pub_eq : (step wRect (Evt.scroll wWheel 100) wState).2 = some wPub := by
  have hd : wheelD wWheel ≠ 0 := by
    norm_num [wheelD, wWheel, wheelScl]
  have hgt : (100 : ℝ) - (scrollLocal wWheel wState).lastMouseT > throttlems := by
    norm_num [scrollLocal, wState, throttlems]
  simp [step, handleScroll, hd, updateCam, hgt, wPub, applyLocal]

/-- The witness scroll at time 10 (10 − 0 ≤ 50) publishes nothing. -/
theorem wStep_none_eq : (step wRect (Evt.scroll wWheel 10) wState).2 = none := by
  have hd : wheelD wWheel ≠ 0 := by
    norm_num [wheelD, wWheel, wheelScl]
  have hle : ¬((10 : ℝ) - (scrollLocal wWheel wState).lastMouseT > throttlems) := by
    norm_num [scrollLocal, wState, throttlems]
  simp [step, handleScroll, hd, updateCam, hle]

/-- C1: camera-publication throttling.  (a) The publications of any run
are pairwise separated by more than `throttlems` (= 50 ms);
(b) consequently any window shorter than the throttle interval contains
at most one publication; (c) an attempt that does not publish still
applies the full local camera mutation, exactly as if no throttling
existed, and sends nothing; (d) a publishing attempt requires more than
`throttlems` since the last publish timestamp, happens at the attempt's
own time, and publishes the then-current (post-mutation) camera state;
(e) the camera state of a run equals the fold of all local mutations:
no sub-interval update is ever lost (latest-wins). -/
theorem updateCam_throttle_policy :
    (∀ (rect : Rect) (s : CtrlState) (evs : List Evt),
      List.Pairwise (fun p q : Publish => q.time - p.time > throttlems) (run rect s evs).2)
    ∧
    (∀ (rect : Rect) (s : CtrlState) (evs : List Evt) (a w : ℝ), w < throttlems →
      ((run rect s evs).2.countP fun p => decide (a ≤ p.time ∧ p.time ≤ a + w)) ≤ 1)
    ∧
    (∀ (rect : Rect) (ev : Evt) (s : CtrlState),
      (step rect ev s).2 = none → (step rect ev s).1 = applyLocal rect ev s)
    ∧
    (∀ (rect : Rect) (ev : Evt) (s : CtrlState) (p : Publish),
      (step rect ev s).2 = some p →
        ev.time - s.lastMouseT > throttlems ∧ p.time = ev.time ∧
        p.camp = vadd (sphrToCart (applyLocal rect ev s).cp) (applyLocal rect ev s).cf ∧
        p.camf = (applyLocal rect ev s).cf)
    ∧
    (∀ (rect : Rect) (s : CtrlState) (evs : List Evt),
      CamEq (run rect s evs).1 (List.foldl (fun st ev => applyLocal rect ev st) s evs)) := by
  refine ⟨fun rect s evs => (run_publish_times rect evs s).2,
          fun rect s evs a w hw => pairwise_countP_window (run_publish_times rect evs s).2 hw,
          fun rect ev s hnone => ?_, fun rect ev s p hsome => ?_, fun rect s evs => run_camEq rect evs s⟩
  · rcases step_char rect ev s with h | ⟨ht, h⟩
    · rw [h]
    · rw [h] at hnone
      simp at hnone
  · rcases step_char rect ev s with h | ⟨ht, h⟩
    · rw [h] at hsome
      simp at hsome
    · rw [h] at hsome
      simp only [Option.some.injEq] at hsome
      subst hsome
      exact ⟨ht, rfl, rfl, rfl⟩

/-- Witness for C1: on the concrete state `wState`, a scroll at time 10
is throttled and leaves exactly the local mutation; a scroll at time 100
publishes `wPub`, whose payload is the then-current post-mutation state;
and the empty run has at most one publication in the window `[0, 0]`. -/
theorem updateCam_throttle_policy_witness :
    ((0 : ℝ) < throttlems ∧
      ((run wRect wState []).2.countP fun p => decide ((0 : ℝ) ≤ p.time ∧ p.time ≤ 0 + 0)) ≤ 1)
    ∧ (step wRect (Evt.scroll wWheel 10) wState).1 = applyLocal wRect (Evt.scroll wWheel 10) wState
    ∧ ((Evt.scroll wWheel 100).time - wState.lastMouseT > throttlems ∧
        wPub.time = (Evt.scroll wWheel 100).time ∧
        wPub.camp = vadd (sphrToCart (applyLocal wRect (Evt.scroll wWheel 100) wState).cp)
                         (applyLocal wRect (Evt.scroll wWheel 100) wState).cf ∧
        wPub.camf = (applyLocal wRect (Evt.scroll wWheel 100) wState).cf) :=
  ⟨⟨by norm_num [throttlems],
    updateCam_throttle_policy.2.1 wRect wState [] 0 0 (by norm_num [throttlems])⟩,
   updateCam_throttle_policy.2.2.1 wRect (Evt.scroll wWheel 10) wState wStep_none_eq,
   updateCam_throttle_policy.2.2.2.1 wRect (Evt.scroll wWheel 100) wState wPub wStep_pub_eq⟩

/-- C2: every publication's `camp` is derived from the spherical offset
and focal point current at publish time: it equals
`vadd (sphrToCart cp) cf` of the post-step state (and `camf` is that
state's focal point) — never an independently stored Cartesian
position. -/
theorem publish_position_derived :
    ∀ (rect : Rect) (ev : Evt) (s : CtrlState) (p : Publish),
      (step rect ev s).2 = some p →
        p.camp = vadd (sphrToCart (step rect ev s).1.cp) (step rect ev s).1.cf ∧
        p.camf = (step rect ev s).1.cf := by
  intro rect ev s p hsome
  rcases step_char rect ev s with h | ⟨ht, h⟩
  · rw [h] at hsome
    simp at hsome
  · rw [h] at hsome ⊢
    simp only [Option.some.injEq] at hsome
    subst hsome
    exact ⟨rfl, rfl⟩

/-- Witness for C2: the concrete publication `wPub` of a scroll at time
100 on `wState` satisfies the derived-position invariant. -/
theorem publish_position_derived_witness :
    wPub.camp = vadd (sphrToCart (step wRect (Evt.scroll wWheel 100) wState).1.cp)
                     (step wRect (Evt.scroll wWheel 100) wState).1.cf ∧
    wPub.camf = (step wRect (Evt.scroll wWheel 100) wState).1.cf :=
  publish_position_derived wRect (Evt.scroll wWheel 100) wState wPub wStep_pub_eq

/-- A controller state whose offset radius `1/200000` is positive but
below `rlim`. -/
noncomputable def c4Small : CtrlState :=
  ⟨⟨1 / 200000, 0, 0⟩, ⟨0, 0, 0⟩, ⟨0, 1, 0⟩, ⟨0, 0⟩, 0⟩

/-- A controller state with offset radius 100. -/
noncomputable def c4Big : CtrlState :=
  ⟨⟨100, 0, 0⟩, ⟨0, 0, 0⟩, ⟨0, 1, 0⟩, ⟨0, 0⟩, 0⟩

/-- Counterexample for C4: with prior radius `r = 1/200000 > 0` (below
`rlim`) and normalized wheel delta `d = 1 > 0`, the new radius is `rlim`,
which is strictly GREATER than `r` — not strictly less, and `r` was not
at `rlim` either, refuting the claimed consequence for every `r > 0`. -/
theorem dolly_radius_counterexample :
    wheelD wWheel = 1 ∧
    0 < c4Small.cp.r ∧
    c4Small.cp.r ≠ rlim ∧
    (scrollLocal wWheel c4Small).cp.r = rlim ∧
    ¬((scrollLocal wWheel c4Small).cp.r < c4Small.cp.r) := by
  have hd : wheelD wWheel = 1 := by
    norm_num [wheelD, wWheel, wheelScl]
  refine ⟨hd, by norm_num [c4Small], by norm_num [c4Small, rlim], ?_, ?_⟩
  · show max rlim (c4Small.cp.r * (1.0 - dScl * wheelD wWheel)) = rlim
    rw [hd]
    norm_num [c4Small, rlim, dScl]
  · show ¬ max rlim (c4Small.cp.r * (1.0 - dScl * wheelD wWheel)) < c4Small.cp.r
    rw [hd]
    norm_num [c4Small, rlim, dScl]

/-- C4 (amended to priors `r ≥ rlim`): the scroll update always sets the
radius to `max rlim (r·(1 − dScl·d))`; for `d > 0` it is strictly
decreasing on radii strictly above `rlim` and fixes radius `rlim`; and
`d = 1` on radius 100 yields radius 95. -/
theorem dolly_radius_update :
    (∀ (e : WheelEvt) (s : CtrlState),
      (scrollLocal e s).cp.r = max rlim (s.cp.r * (1.0 - dScl * wheelD e)))
    ∧
    (∀ (e : WheelEvt) (s : CtrlState), wheelD e > 0 →
      (s.cp.r > rlim → (scrollLocal e s).cp.r < s.cp.r) ∧
      (s.cp.r = rlim → (scrollLocal e s).cp.r = rlim))
    ∧
    (∀ (e : WheelEvt) (s : CtrlState), wheelD e = 1 → s.cp.r = 100 →
      (scrollLocal e s).cp.r = 95) := by
  have hform : ∀ (e : WheelEvt) (s : CtrlState),
      (scrollLocal e s).cp.r = max rlim (s.cp.r * (1.0 - dScl * wheelD e)) :=
    fun e s => rfl
  have hrlim : (0 : ℝ) < rlim := by norm_num [rlim]
  have hdScl : (0 : ℝ) < dScl := by norm_num [dScl]
  refine ⟨hform, fun e s hd => ⟨fun hr => ?_, fun hr => ?_⟩, fun e s hd hr => ?_⟩
  · rw [hform]
    have hrpos : 0 < s.cp.r := lt_trans hrlim hr
    have hmul : s.cp.r * (1.0 - dScl * wheelD e) < s.cp.r := by
      nlinarith [mul_pos hrpos (mul_pos hdScl hd)]
    exact max_lt hr hmul
  · rw [hform, hr]
    have hmul : rlim * (1.0 - dScl * wheelD e) ≤ rlim := by
      nlinarith [mul_pos hrlim (mul_pos hdScl hd)]
    exact max_eq_left hmul
  · rw [hform, hr, hd]
    rw [show (100 : ℝ) * (1.0 - dScl * 1) = 95 by norm_num [dScl]]
    exact max_eq_right (by norm_num [rlim])

/-- Witness for C4 (amended): on radius 1 the unit zoom-in strictly
shrinks the radius, and on radius 100 it yields exactly 95. -/
theorem dolly_radius_update_witness :
    (wheelD wWheel > 0 ∧ wState.cp.r > rlim ∧
      (scrollLocal wWheel wState).cp.r < wState.cp.r)
    ∧ (wheelD wWheel = 1 ∧ c4Big.cp.r = 100 ∧ (scrollLocal wWheel c4Big).cp.r = 95) := by
  have hd1 : wheelD wWheel = 1 := by norm_num [wheelD, wWheel, wheelScl]
  have hd : wheelD wWheel > 0 := by rw [hd1]; norm_num
  have hr : wState.cp.r > rlim := by norm_num [wState, rlim]
  exact ⟨⟨hd, hr, (dolly_radius_update.2.1 wWheel wState hd).1 hr⟩,
         ⟨hd1, rfl, dolly_radius_update.2.2 wWheel c4Big hd1 rfl⟩⟩

/-- C5: after any drag (orbit) the elevation lies in
`[-phiLim, phiLim]`, and the clamp is idempotent at either boundary: at
`+phiLim` a delta that would push further up leaves it at `+phiLim`, and
symmetrically at `-phiLim`. -/
theorem orbit_elevation_clamp :
    ∀ (rect : Rect) (e : MouseEvt) (s : CtrlState),
      (-phiLim ≤ (dragLocal rect e s).cp.el ∧ (dragLocal rect e s).cp.el ≤ phiLim) ∧
      (s.cp.el = phiLim → phiLim ≤ s.cp.el - 5.0 * ((getNDC rect e).y - s.m0.y) →
        (dragLocal rect e s).cp.el = phiLim) ∧
      (s.cp.el = -phiLim → s.cp.el - 5.0 * ((getNDC rect e).y - s.m0.y) ≤ -phiLim →
        (dragLocal rect e s).cp.el = -phiLim) := by
  intro rect e s
  have hφ : -phiLim ≤ phiLim := by norm_num [phiLim]
  have hel : (dragLocal rect e s).cp.el =
      max (-phiLim) (min phiLim (s.cp.el - 5.0 * ((getNDC rect e).y - s.m0.y))) := rfl
  refine ⟨⟨?_, ?_⟩, fun hb hup => ?_, fun hb hdown => ?_⟩
  · rw [hel]
    exact le_max_left _ _
  · rw [hel]
    exact max_le hφ (min_le_left _ _)
  · rw [hel, min_eq_left hup, max_eq_right hφ]
  · rw [hel, min_eq_right (le_trans hdown hφ), max_eq_left hdown]

/-- A controller state with elevation exactly at `phiLim`. -/
noncomputable def c5State : CtrlState :=
  ⟨⟨1, 0, 1.5175⟩, ⟨0, 0, 0⟩, ⟨0, 1, 0⟩, ⟨0, 0⟩, 0⟩

/-- The mouse event at the canvas origin, whose NDC on `wRect` is
`(0, 0)`. -/
noncomputable def c5Evt : MouseEvt := ⟨0, 0⟩

/-- Witness for C5: at elevation `phiLim` with a zero mouse delta (which
would keep the unclamped value at the limit), the drag leaves the
elevation exactly at `phiLim`. -/
theorem orbit_elevation_clamp_witness :
    c5State.cp.el = phiLim ∧
    phiLim ≤ c5State.cp.el - 5.0 * ((getNDC wRect c5Evt).y - c5State.m0.y) ∧
    (dragLocal wRect c5Evt c5State).cp.el = phiLim := by
  have hb : c5State.cp.el = phiLim := by norm_num [c5State, phiLim]
  have hup : phiLim ≤ c5State.cp.el - 5.0 * ((getNDC wRect c5Evt).y - c5State.m0.y) := by
    norm_num [c5State, phiLim, getNDC, wRect, c5Evt]
  exact ⟨hb, hup, (orbit_elevation_clamp wRect c5Evt c5State).2.1 hb hup⟩

/-- C10: a drag (orbit) step keeps the offset radius and the focal point
unchanged, and a scroll (dolly) step keeps the offset azimuth, the
offset elevation and the focal point unchanged. -/
theorem orbit_dolly_frame_effects :
    (∀ (rect : Rect) (e : MouseEvt) (t : ℝ) (s : CtrlState),
      (step rect (Evt.drag e t) s).1.cp.r = s.cp.r ∧
      (step rect (Evt.drag e t) s).1.cf = s.cf)
    ∧
    (∀ (rect : Rect) (e : WheelEvt) (t : ℝ) (s : CtrlState),
      (step rect (Evt.scroll e t) s).1.cp.az = s.cp.az ∧
      (step rect (Evt.scroll e t) s).1.cp.el = s.cp.el ∧
      (step rect (Evt.scroll e t) s).1.cf = s.cf) := by
  constructor
  · intro rect e t s
    have h := step_camEq rect (Evt.drag e t) s
    have hcp : (step rect (Evt.drag e t) s).1.cp = (dragLocal rect e s).cp := h.1
    have hcf : (step rect (Evt.drag e t) s).1.cf = (dragLocal rect e s).cf := h.2.1
    exact ⟨by rw [hcp]; rfl, by rw [hcf]; rfl⟩
  · intro rect e t s
    have h := step_camEq rect (Evt.scroll e t) s
    have hcp : (step rect (Evt.scroll e t) s).1.cp = (applyLocal rect (Evt.scroll e t) s).cp :=
      h.1
    have hcf : (step rect (Evt.scroll e t) s).1.cf = (applyLocal rect (Evt.scroll e t) s).cf :=
      h.2.1
    by_cases hd : wheelD e ≠ 0
    · have hal : applyLocal rect (Evt.scroll e t) s = scrollLocal e s := by
        simp [applyLocal, hd]
      rw [hal] at hcp hcf
      exact ⟨by rw [hcp]; rfl, by rw [hcp]; rfl, by rw [hcf]; rfl⟩
    · have hal : applyLocal rect (Evt.scroll e t) s = s := by
        simp [applyLocal, hd]
      rw [hal] at hcp hcf
      exact ⟨by rw [hcp], by rw [hcp], by rw [hcf]⟩

/-- The converted image has exactly 4 bytes per pixel. -/
theorem frameToImageData_length (frame : List ℕ) :
    ∀ n, (frameToImageData frame n).length = 4 * n := by
  intro n
  induction n with
  | zero => rfl
  | succ n ih =>
    simp only [frameToImageData, List.length_append, ih, List.length_cons,
      List.length_nil]
    omega

/-- Byte `4i + k` of the converted image (for a valid pixel index and
byte offset) is 255 for `k = 3` and byte `4i + k` of the source frame
otherwise. -/
theorem frameToImageData_getD (frame : List ℕ) :
    ∀ (n i k : ℕ), i < n → k < 4 →
      (frameToImageData frame n).getD (4 * i + k) 0 =
        if k = 3 then 255 else frame.getD (4 * i + k) 0 := by
  intro n
  induction n with
  | zero =>
    intro i k hi _
    exact absurd hi (Nat.not_lt_zero i)
  | succ n ih =>
    intro i k hi hk
    rcases Nat.lt_succ_iff_lt_or_eq.mp hi with h | h
    · simp only [frameToImageData]
      rw [List.getD_append _ _ _ _ (by rw [frameToImageData_length]; omega)]
      exact ih i k h hk
    · subst h
      simp only [frameToImageData]
      rw [List.getD_append_right _ _ _ _ (by rw [frameToImageData_length]; omega),
        frameToImageData_length]
      have hidx : 4 * i + k - 4 * i = k := by omega
      rw [hidx]
      interval_cases k <;> simp

/-- C6: for a frame buffer of exactly `width·height·4` bytes, every
displayed pixel `i` has red, green and blue equal to source bytes `4i`,
`4i+1`, `4i+2` and alpha 255 (regardless of source byte `4i+3`), both in
the initial render and in the `frameChange` handler. -/
theorem frame_conversion :
    ∀ (frame : List ℕ) (wpx hpx : ℕ), frame.length = wpx * hpx * 4 →
      ∀ i, i < wpx * hpx →
      ((renderInitialImage frame (wpx * hpx)).getD (4 * i) 0 = frame.getD (4 * i) 0 ∧
       (renderInitialImage frame (wpx * hpx)).getD (4 * i + 1) 0 = frame.getD (4 * i + 1) 0 ∧
       (renderInitialImage frame (wpx * hpx)).getD (4 * i + 2) 0 = frame.getD (4 * i + 2) 0 ∧
       (renderInitialImage frame (wpx * hpx)).getD (4 * i + 3) 0 = 255) ∧
      ((frameChangeImage frame (wpx * hpx)).getD (4 * i) 0 = frame.getD (4 * i) 0 ∧
       (frameChangeImage frame (wpx * hpx)).getD (4 * i + 1) 0 = frame.getD (4 * i + 1) 0 ∧
       (frameChangeImage frame (wpx * hpx)).getD (4 * i + 2) 0 = frame.getD (4 * i + 2) 0 ∧
       (frameChangeImage frame (wpx * hpx)).getD (4 * i + 3) 0 = 255) := by
  intro frame wpx hpx _ i hi
  have h0 := frameToImageData_getD frame (wpx * hpx) i 0 hi (by norm_num)
  have h1 := frameToImageData_getD frame (wpx * hpx) i 1 hi (by norm_num)
  have h2 := frameToImageData_getD frame (wpx * hpx) i 2 hi (by norm_num)
  have h3 := frameToImageData_getD frame (wpx * hpx) i 3 hi (by norm_num)
  simp only [if_neg (by norm_num : (0 : ℕ) ≠ 3)] at h0
  simp only [if_neg (by norm_num : (1 : ℕ) ≠ 3)] at h1
  simp only [if_neg (by norm_num : (2 : ℕ) ≠ 3)] at h2
  simp only [if_pos rfl] at h3
  rw [Nat.add_zero] at h0
  exact ⟨⟨h0, h1, h2, h3⟩, ⟨h0, h1, h2, h3⟩⟩

/-- Witness for C6: the 1×1 frame `[10, 20, 30, 40]` displays as the
pixel `[10, 20, 30, 255]` — the source alpha 40 is discarded. -/
theorem frame_conversion_witness :
    ([10, 20, 30, 40] : List ℕ).length = 1 * 1 * 4 ∧ 0 < 1 * 1 ∧
    (frameChangeImage [10, 20, 30, 40] (1 * 1)).getD (4 * 0) 0 =
      ([10, 20, 30, 40] : List ℕ).getD (4 * 0) 0 ∧
    (frameChangeImage [10, 20, 30, 40] (1 * 1)).getD (4 * 0 + 3) 0 = 255 :=
  ⟨by decide, by decide,
   (frame_conversion [10, 20, 30, 40] 1 1 (by decide) 0 (by decide)).2.1,
   (frame_conversion [10, 20, 30, 40] 1 1 (by decide) 0 (by decide)).2.2.2.2⟩

/-- Counterexample for C7: the malformed 1-byte payload `[7]` (byte
count neither a multiple of 4 nor equal to `1·1·4`) does NOT leave the
previously displayed image `[9, 9, 9, 255]` unchanged: the handler
converts and displays it anyway (as `[7, 0, 0, 255]`), with no
diagnostic path in the code. -/
theorem malformed_frame_counterexample :
    ¬(4 ∣ ([7] : List ℕ).length) ∧
    ([7] : List ℕ).length ≠ 1 * 1 * 4 ∧
    frameArrive [9, 9, 9, 255] [7] (1 * 1) = [7, 0, 0, 255] ∧
    frameArrive [9, 9, 9, 255] [7] (1 * 1) ≠ [9, 9, 9, 255] := by
  refine ⟨by decide, by decide, by decide, by decide⟩

/-- C7 (amended): the frame-arrival handler performs no payload
validation at all: whatever the incoming byte count, it unconditionally
replaces the displayed image with the converted buffer, reading any
missing source byte as 0 and forcing alpha 255; no diagnostic is
surfaced and the previous image is never retained. -/
theorem frame_arrival_no_validation :
    (∀ (prev frame : List ℕ) (numPx : ℕ),
      frameArrive prev frame numPx = frameChangeImage frame numPx)
    ∧
    (∀ (frame : List ℕ) (numPx i k : ℕ), i < numPx → k < 4 →
      (frameChangeImage frame numPx).getD (4 * i + k) 0 =
        if k = 3 then 255 else frame.getD (4 * i + k) 0) := by
  exact ⟨fun prev frame numPx => rfl,
         fun frame numPx i k hi hk => frameToImageData_getD frame numPx i k hi hk⟩

/-- Witness for C7 (amended): on the malformed payload `[7]` at 1×1
resolution, the displayed image is recomputed with byte 0 taken from the
payload and byte 1 (missing from the payload) read as 0. -/
theorem frame_arrival_no_validation_witness :
    (0 < 1 ∧ (0 : ℕ) < 4 ∧
      (frameChangeImage [7] 1).getD (4 * 0 + 0) 0 =
        if (0 : ℕ) = 3 then 255 else ([7] : List ℕ).getD (4 * 0 + 0) 0) ∧
    (0 < 1 ∧ (1 : ℕ) < 4 ∧
      (frameChangeImage [7] 1).getD (4 * 0 + 1) 0 =
        if (1 : ℕ) = 3 then 255 else ([7] : List ℕ).getD (4 * 0 + 1) 0) ∧
    frameArrive [9, 9, 9, 255] [7] 1 = frameChangeImage [7] 1 :=
  ⟨⟨by decide, by decide, frame_arrival_no_validation.2 [7] 1 0 0 (by decide) (by decide)⟩,
   ⟨by decide, by decide, frame_arrival_no_validation.2 [7] 1 0 1 (by decide) (by decide)⟩,
   frame_arrival_no_validation.1 [9, 9, 9, 255] [7] 1⟩

/-- Counterexample for C8: on a 100×100 rectangle at the client origin,
a pointer on the top edge gets NDC `y = 0` (the claim says the top edge
maps to `y = 1.0`), and a pointer on the bottom edge gets NDC `y = -1`,
which is not in `[0, 1]`. -/
theorem ndc_counterexample :
    (getNDC wRect ⟨50, 0⟩).y = 0 ∧ (0 : ℝ) ≠ 1 ∧
    (getNDC wRect ⟨50, 100⟩).y = -1 ∧ ¬(0 ≤ (getNDC wRect ⟨50, 100⟩).y) := by
  norm_num [getNDC, wRect]

/-- C8 (amended): for a pointer inside a non-degenerate bounding
rectangle, the NDC x lies in `[0, 1]` with 0 at the left edge and 1 at
the right edge, while the NDC y lies in `[-1, 0]` — inverted so that the
top edge maps to 0 and the bottom edge to −1. -/
theorem ndc_range (rect : Rect) (e : MouseEvt)
    (hlr : rect.left < rect.right) (htb : rect.top < rect.bottom)
    (hx1 : rect.left ≤ e.clientX) (hx2 : e.clientX ≤ rect.right)
    (hy1 : rect.top ≤ e.clientY) (hy2 : e.clientY ≤ rect.bottom) :
    (0 ≤ (getNDC rect e).x ∧ (getNDC rect e).x ≤ 1) ∧
    (-1 ≤ (getNDC rect e).y ∧ (getNDC rect e).y ≤ 0) ∧
    (e.clientX = rect.left → (getNDC rect e).x = 0) ∧
    (e.clientX = rect.right → (getNDC rect e).x = 1) ∧
    (e.clientY = rect.top → (getNDC rect e).y = 0) ∧
    (e.clientY = rect.bottom → (getNDC rect e).y = -1) := by
  have hden : (0 : ℝ) < rect.right - rect.left := sub_pos.mpr hlr
  have hbt : (0 : ℝ) < rect.bottom - rect.top := sub_pos.mpr htb
  have hx : (getNDC rect e).x = (e.clientX - rect.left) / (rect.right - rect.left) := rfl
  have hy : (getNDC rect e).y = -((e.clientY - rect.top) / (rect.bottom - rect.top)) := by
    show (e.clientY - rect.top) / (rect.top - rect.bottom) = _
    rw [show rect.top - rect.bottom = -(rect.bottom - rect.top) by ring, div_neg]
  refine ⟨⟨?_, ?_⟩, ⟨?_, ?_⟩, ?_, ?_, ?_, ?_⟩
  · rw [hx]
    exact div_nonneg (by linarith) hden.le
  · rw [hx, div_le_one hden]
    linarith
  · rw [hy]
    have h1 : (e.clientY - rect.top) / (rect.bottom - rect.top) ≤ 1 := by
      rw [div_le_one hbt]
      linarith
    linarith
  · rw [hy]
    have h0 : 0 ≤ (e.clientY - rect.top) / (rect.bottom - rect.top) :=
      div_nonneg (by linarith) hbt.le
    linarith
  · intro hc
    rw [hx, hc, sub_self, zero_div]
  · intro hc
    rw [hx, hc]
    exact div_self (ne_of_gt hden)
  · intro hc
    rw [hy, hc, sub_self, zero_div, neg_zero]
  · intro hc
    rw [hy, hc, div_self (ne_of_gt hbt)]

/-- Witness for C8 (amended): the pointer `(50, 0)` on the top edge of
the 100×100 rectangle has NDC x in `[0, 1]` and NDC y exactly 0. -/
theorem ndc_range_witness :
    (wRect.left < wRect.right ∧ wRect.top < wRect.bottom ∧
     wRect.left ≤ (50 : ℝ) ∧ (50 : ℝ) ≤ wRect.right ∧
     wRect.top ≤ (0 : ℝ) ∧ (0 : ℝ) ≤ wRect.bottom) ∧
    (0 ≤ (getNDC wRect ⟨50, 0⟩).x ∧ (getNDC wRect ⟨50, 0⟩).x ≤ 1) ∧
    (getNDC wRect ⟨50, 0⟩).y = 0 := by
  have h := ndc_range wRect ⟨50, 0⟩ (by norm_num [wRect]) (by norm_num [wRect])
    (by norm_num [wRect]) (by norm_num [wRect]) (by norm_num [wRect]) (by norm_num [wRect])
  exact ⟨⟨by norm_num [wRect], by norm_num [wRect], by norm_num [wRect],
          by norm_num [wRect], by norm_num [wRect], by norm_num [wRect]⟩,
         h.1, h.2.2.2.2.1 (by norm_num [wRect])⟩

/-- Counterexample for C9: starting from elevation 1.5 (strictly inside
the limits) and radius 1 > rlim, the two orbit calls with elevation
deltas −0.1 then +0.1 (both azimuth deltas 0) have zero net delta, yet
the elevation clamp engages on the first call and the final offset has
elevation 1.4175 ≠ 1.5. -/
theorem orbit_netzero_counterexample :
    (-phiLim < (1.5 : ℝ) ∧ (1.5 : ℝ) < phiLim) ∧ rlim < (1 : ℝ) ∧
    ((([(0, -0.1), (0, 0.1)] : List (ℝ × ℝ)).map Prod.fst).sum = 0) ∧
    ((([(0, -0.1), (0, 0.1)] : List (ℝ × ℝ)).map Prod.snd).sum = 0) ∧
    List.foldl (fun a d => orbit d.1 d.2 a) ⟨1, 0, 1.5⟩ [(0, -0.1), (0, 0.1)] ≠
      (⟨1, 0, 1.5⟩ : Sphr) := by
  have h1 : orbit 0 (-0.1) (⟨1, 0, 1.5⟩ : Sphr) = ⟨1, 0, phiLim⟩ := by
    simp only [orbit]
    rw [show (1.5 : ℝ) - (-0.1) = 1.6 by norm_num,
      min_eq_left (by norm_num [phiLim]), max_eq_right (by norm_num [phiLim])]
    norm_num
  have h2 : orbit 0 0.1 (⟨1, 0, phiLim⟩ : Sphr) = ⟨1, 0, 1.4175⟩ := by
    simp only [orbit]
    rw [show phiLim - (0.1 : ℝ) = 1.4175 by norm_num [phiLim],
      min_eq_right (by norm_num [phiLim]), max_eq_right (by norm_num [phiLim])]
    norm_num
  refine ⟨⟨by norm_num [phiLim], by norm_num [phiLim]⟩, by norm_num [rlim],
    by norm_num, by norm_num, ?_⟩
  rw [List.foldl_cons, List.foldl_cons, List.foldl_nil, h1, h2]
  intro hEq
  rw [Sphr.mk.injEq] at hEq
  norm_num at hEq

/-- Evaluation of a fold of orbit calls when the elevation clamp never
engages: the azimuth decreases by the sum of the azimuth deltas and the
elevation by the sum of the elevation deltas, the radius unchanged. -/
theorem orbit_foldl_eval :
    ∀ (ds : List (ℝ × ℝ)) (c : Sphr),
      (∀ n, n ≤ ds.length →
        -phiLim ≤ c.el - ((ds.take n).map Prod.snd).sum ∧
        c.el - ((ds.take n).map Prod.snd).sum ≤ phiLim) →
      List.foldl (fun a d => orbit d.1 d.2 a) c ds =
        ⟨c.r, c.az - (ds.map Prod.fst).sum, c.el - (ds.map Prod.snd).sum⟩ := by
  intro ds
  induction ds with
  | nil =>
    intro c _
    simp
  | cons d ds ih =>
    intro c h
    have h1 := h 1 (by simp)
    have hd2 : -phiLim ≤ c.el - d.2 ∧ c.el - d.2 ≤ phiLim := by
      simpa using h1
    have hclamp : max (-phiLim) (min phiLim (c.el - d.2)) = c.el - d.2 := by
      rw [min_eq_right hd2.2, max_eq_right hd2.1]
    have horb : orbit d.1 d.2 c = ⟨c.r, c.az - d.1, c.el - d.2⟩ := by
      simp only [orbit, hclamp]
    rw [List.foldl_cons, horb, ih ⟨c.r, c.az - d.1, c.el - d.2⟩ ?_]
    · simp only [List.map_cons, List.sum_cons]
      congr 1 <;> ring
    · intro n hn
      have hsn := h (n + 1) (by simpa using Nat.succ_le_succ hn)
      simpa [List.take_succ_cons, sub_sub] using hsn

/-- C9 (amended): a finite sequence of orbit calls whose azimuth deltas
and elevation deltas each sum to zero restores the offset exactly,
PROVIDED the running elevation stays within `[-phiLim, phiLim]` at every
prefix (i.e. the clamp never engages); with clamping engaged the
round-trip can fail. -/
theorem orbit_netzero_roundtrip :
    ∀ (ds : List (ℝ × ℝ)) (c : Sphr),
      (∀ n, n ≤ ds.length →
        -phiLim ≤ c.el - ((ds.take n).map Prod.snd).sum ∧
        c.el - ((ds.take n).map Prod.snd).sum ≤ phiLim) →
      (ds.map Prod.fst).sum = 0 → (ds.map Prod.snd).sum = 0 →
      List.foldl (fun a d => orbit d.1 d.2 a) c ds = c := by
  intro ds c h haz hel
  rw [orbit_foldl_eval ds c h, haz, hel]
  simp

/-- Witness for C9 (amended): from elevation 0, the orbit sequence with
deltas `(0.2, 0.3)` then `(-0.2, -0.3)` (net zero, clamp never engaged)
returns the offset exactly to `⟨1, 0, 0⟩`. -/
theorem orbit_netzero_roundtrip_witness :
    ((([(0.2, 0.3), (-0.2, -0.3)] : List (ℝ × ℝ)).map Prod.fst).sum = 0) ∧
    ((([(0.2, 0.3), (-0.2, -0.3)] : List (ℝ × ℝ)).map Prod.snd).sum = 0) ∧
    List.foldl (fun a d => orbit d.1 d.2 a) ⟨1, 0, 0⟩ [(0.2, 0.3), (-0.2, -0.3)] =
      (⟨1, 0, 0⟩ : Sphr) := by
  refine ⟨by norm_num, by norm_num,
    orbit_netzero_roundtrip [(0.2, 0.3), (-0.2, -0.3)] ⟨1, 0, 0⟩ ?_ (by norm_num) (by norm_num)⟩
  intro n hn
  have hn2 : n ≤ 2 := by simpa using hn
  interval_cases n <;> norm_num [phiLim, List.take_succ_cons]

/-- C3: the spherical round-trip law over the reals: for every nonzero
vector `v`, `sphrToCart (cartToSphr v) = v` exactly. -/
theorem spherical_roundtrip (v : Vec3) (hv : v ≠ ⟨0, 0, 0⟩) :
    sphrToCart (cartToSphr v) = v := by
  obtain ⟨x, y, z⟩ := v
  have hS : 0 < x * x + y * y + z * z := by
    rcases (add_nonneg (add_nonneg (mul_self_nonneg x) (mul_self_nonneg y))
        (mul_self_nonneg z)).lt_or_eq with h | h
    · exact h
    · exfalso
      apply hv
      have hx2 : x * x = 0 := by nlinarith [mul_self_nonneg y, mul_self_nonneg z]
      have hy2 : y * y = 0 := by nlinarith [mul_self_nonneg x, mul_self_nonneg z]
      have hz2 : z * z = 0 := by nlinarith [mul_self_nonneg x, mul_self_nonneg y]
      rw [mul_self_eq_zero] at hx2 hy2 hz2
      rw [hx2, hy2, hz2]
  have hr : 0 < Real.sqrt (x * x + y * y + z * z) := Real.sqrt_pos.mpr hS
  have hrr : Real.sqrt (x * x + y * y + z * z) * Real.sqrt (x * x + y * y + z * z) =
      x * x + y * y + z * z := Real.mul_self_sqrt hS.le
  set r := Real.sqrt (x * x + y * y + z * z) with hrdef
  have hyabs : |y| ≤ r := by
    rw [← Real.sqrt_mul_self_eq_abs]
    exact Real.sqrt_le_sqrt (by nlinarith [mul_self_nonneg x, mul_self_nonneg z])
  have hy2 : y / r ≤ 1 := by
    rw [div_le_one hr]
    exact le_trans (le_abs_self y) hyabs
  have hy1 : -1 ≤ y / r := by
    rw [le_div_iff₀ hr]
    have := neg_abs_le y
    linarith
  have hsinel : Real.sin (Real.arcsin (y / r)) = y / r := Real.sin_arcsin hy1 hy2
  have hQ0 : (0 : ℝ) ≤ x * x + z * z := add_nonneg (mul_self_nonneg x) (mul_self_nonneg z)
  have hcosel : Real.cos (Real.arcsin (y / r)) = Real.sqrt (x * x + z * z) / r := by
    rw [Real.cos_arcsin]
    have h1 : 1 - (y / r) ^ 2 = (x * x + z * z) / (r * r) := by
      field_simp
      nlinarith [hrr]
    rw [h1, Real.sqrt_div hQ0, Real.sqrt_mul_self hr.le]
  have habs : Complex.abs ⟨z, x⟩ = Real.sqrt (x * x + z * z) := by
    rw [Complex.abs_apply, Complex.normSq_mk,
      show z * z + x * x = x * x + z * z from by ring]
  have hsinaz : Real.sin (Complex.arg ⟨z, x⟩) = x / Real.sqrt (x * x + z * z) := by
    rw [Complex.sin_arg, habs]
  have hQpos : (⟨z, x⟩ : ℂ) ≠ 0 → 0 < Real.sqrt (x * x + z * z) := by
    intro hw
    rw [Real.sqrt_pos]
    rcases hQ0.lt_or_eq with h | h
    · exact h
    · exfalso
      apply hw
      have hx0 : x * x = 0 := by nlinarith [mul_self_nonneg z]
      have hz0 : z * z = 0 := by nlinarith [mul_self_nonneg x]
      rw [mul_self_eq_zero] at hx0 hz0
      apply Complex.ext <;> simp [hx0, hz0]
  have hX : r * Real.sin (Complex.arg ⟨z, x⟩) * Real.cos (Real.arcsin (y / r)) = x := by
    by_cases hw : (⟨z, x⟩ : ℂ) = 0
    · have hx0 : x = 0 := by simpa using congrArg Complex.im hw
      rw [hsinaz, hx0]
      simp
    · have hQ := hQpos hw
      rw [hsinaz, hcosel]
      field_simp
  have hY : r * Real.sin (Real.arcsin (y / r)) = y := by
    rw [hsinel]
    field_simp
  have hZ : r * Real.cos (Complex.arg ⟨z, x⟩) * Real.cos (Real.arcsin (y / r)) = z := by
    by_cases hw : (⟨z, x⟩ : ℂ) = 0
    · have hx0 : x = 0 := by simpa using congrArg Complex.im hw
      have hz0 : z = 0 := by simpa using congrArg Complex.re hw
      rw [hcosel, hx0, hz0]
      simp
    · have hQ := hQpos hw
      rw [hcosel, Complex.cos_arg hw, habs,
        show (⟨z, x⟩ : ℂ).re = z from rfl]
      field_simp
  show Vec3.mk (r * Real.sin (Complex.arg ⟨z, x⟩) * Real.cos (Real.arcsin (y / r)))
      (r * Real.sin (Real.arcsin (y / r)))
      (r * Real.cos (Complex.arg ⟨z, x⟩) * Real.cos (Real.arcsin (y / r))) = ⟨x, y, z⟩
  rw [hX, hY, hZ]

/-- Witness for C3: the round trip at the concrete nonzero vector
`(0, 0, 1)`. -/
theorem spherical_roundtrip_witness :
    (⟨0, 0, 1⟩ : Vec3) ≠ ⟨0, 0, 0⟩ ∧ sphrToCart (cartToSphr ⟨0, 0, 1⟩) = ⟨0, 0, 1⟩ :=
  ⟨by simp, spherical_roundtrip ⟨0, 0, 1⟩ (by simp)⟩

end IpyP
